import Mathlib

/-
Shallow embedding of the constellation matcher
(src/lib/constellationMatcher.ts together with the reference shape data of
src/data/constellations.ts) over real arithmetic.

Modelling conventions:
  * JavaScript numbers are modelled as real numbers (ℝ).
  * `calculateMSE` in the source returns the IEEE value `Infinity` when no
    pair was corresponded; that case is modelled as `none : Option ℝ`, and
    `Math.exp (-Infinity * 2) = 0` is modelled by `expSimilarity none = 0`.
  * The `-1` sentinel of the correspondence array is kept as the integer -1.
  * `totalDist / n || 1` (JS falsy fallback on 0) is modelled by an
    `if _ = 0 then 1 else _` test.
-/

namespace ConstellationMatcher

/-- A 2D coordinate point (interface Point2D of src/data/constellations.ts). -/
@[ext]
structure Point2D where
  x : ℝ
  y : ℝ

/-- A reference shape of the library (interface ReferenceConstellation). -/
structure ReferenceConstellation where
  id : String
  name : String
  points : List Point2D
  svgPath : String

/-- A matching result (interface MatchResult of constellationMatcher.ts). -/
structure MatchResult where
  constellationId : String
  constellationName : String
  similarity : ℝ
  svgPath : String

/-- getCentroid: the arithmetic mean of the points ((0,0) for the empty list). -/
noncomputable def getCentroid (points : List Point2D) : Point2D :=
  if points.length = 0 then ⟨0, 0⟩
  else
    let sum := points.foldl (fun acc p => Point2D.mk (acc.x + p.x) (acc.y + p.y)) ⟨0, 0⟩
    ⟨sum.x / points.length, sum.y / points.length⟩

/-- centerPoints: translate the set so its centroid becomes the origin. -/
noncomputable def centerPoints (points : List Point2D) : List Point2D :=
  let centroid := getCentroid points
  points.map fun p => ⟨p.x - centroid.x, p.y - centroid.y⟩

/-- getScale: mean Euclidean distance from the origin; the JS source returns
`totalDist / n || 1`, i.e. 1 when the quotient is 0 (or when n = 0). -/
noncomputable def getScale (points : List Point2D) : ℝ :=
  if points.length = 0 then 1
  else
    let totalDist := points.foldl (fun s p => s + Real.sqrt (p.x * p.x + p.y * p.y)) 0
    if totalDist / points.length = 0 then 1 else totalDist / points.length

/-- normalizePoints: center the set, then divide every coordinate by its scale. -/
noncomputable def normalizePoints (points : List Point2D) : List Point2D :=
  let centered := centerPoints points
  let scale := getScale centered
  centered.map fun p => ⟨p.x / scale, p.y / scale⟩

/-- distanceSquared: squared Euclidean distance between two points. -/
def distanceSquared (a b : Point2D) : ℝ :=
  (a.x - b.x) * (a.x - b.x) + (a.y - b.y) * (a.y - b.y)

/-- The update of the loop state (bestRefIdx, bestDist) of
findBestCorrespondence's inner loop by one candidate: the initial state
bestRefIdx = -1 / bestDist = Infinity is `none`, and a candidate replaces the
state exactly when its distance is strictly smaller. -/
noncomputable def stepBest (b : Option (ℕ × ℝ)) (c : ℕ × ℝ) : Option (ℕ × ℝ) :=
  match b with
  | none => some c
  | some (bi, bd) => if c.2 < bd then some c else some (bi, bd)

/-- The inner loop of findBestCorrespondence: scan the reference points from
absolute index `j` upward, skipping used indices, keeping the pair
(index, distance) with the strictly smallest distance seen so far. -/
noncomputable def findNearestAux (p : Point2D) :
    List Point2D → ℕ → Finset ℕ → Option (ℕ × ℝ) → Option (ℕ × ℝ)
  | [], _, _, best => best
  | r :: rs, j, used, best =>
    if j ∈ used then findNearestAux p rs (j + 1) used best
    else findNearestAux p rs (j + 1) used (stepBest best (j, distanceSquared p r))

/-- The outer loop of findBestCorrespondence: for each user point in order,
assign the nearest unused reference index (or -1 when none is available)
and mark it used. -/
noncomputable def correspondenceGo (refPoints : List Point2D) :
    List Point2D → Finset ℕ → List ℤ
  | [], _ => []
  | p :: ps, used =>
    match findNearestAux p refPoints 0 used none with
    | none => -1 :: correspondenceGo refPoints ps used
    | some (j, _) => (j : ℤ) :: correspondenceGo refPoints ps (insert j used)

/-- findBestCorrespondence: greedy nearest-available assignment of reference
indices to user points (-1 = no correspondence). -/
noncomputable def findBestCorrespondence (userPoints refPoints : List Point2D) : List ℤ :=
  correspondenceGo refPoints userPoints ∅

/-- One iteration of calculateMSE's loop: when the entry's reference index is
in range (`refIdx >= 0 && refIdx < refPoints.length`), add its squared
distance to the total and bump the count; otherwise skip the entry. -/
noncomputable def mseStep (refPoints : List Point2D) (acc : ℝ × ℕ)
    (pc : Point2D × ℤ) : ℝ × ℕ :=
  if 0 ≤ pc.2 ∧ pc.2 < (refPoints.length : ℤ) then
    (acc.1 + distanceSquared pc.1 (refPoints.getD pc.2.toNat ⟨0, 0⟩), acc.2 + 1)
  else acc

/-- The accumulator pass of calculateMSE: total squared error and count over
the entries whose reference index is in range. -/
noncomputable def mseTotals (userPoints refPoints : List Point2D)
    (correspondence : List ℤ) : ℝ × ℕ :=
  (userPoints.zip correspondence).foldl (mseStep refPoints) (0, 0)

/-- calculateMSE: mean squared error over corresponded pairs; `none` models
the source's `Infinity` when no pair was counted. -/
noncomputable def calculateMSE (userPoints refPoints : List Point2D)
    (correspondence : List ℤ) : Option ℝ :=
  let t := mseTotals userPoints refPoints correspondence
  if 0 < t.2 then some (t.1 / t.2) else none

/-- `Math.exp (-mse * 2)`, extended by `Math.exp (-Infinity) = 0` for the
no-correspondence case. -/
noncomputable def expSimilarity : Option ℝ → ℝ
  | some m => Real.exp (-m * 2)
  | none => 0

/-- The point-count penalty factor `Math.max(0, 1 - pointCountDiff * 0.1)`. -/
noncomputable def pointCountPenalty (d : ℕ) : ℝ :=
  max 0 (1 - (d : ℝ) * 0.1)

/-- `Math.abs(userPoints.length - refConstellation.points.length)`. -/
def pointCountDiff (userPoints : List Point2D) (refConstellation : ReferenceConstellation) : ℕ :=
  ((userPoints.length : ℤ) - (refConstellation.points.length : ℤ)).natAbs

/-- calculateSimilarity: normalize both sets, correspond them greedily,
convert the MSE to exp (-mse * 2) and apply the point-count penalty. -/
noncomputable def calculateSimilarity (userPoints : List Point2D)
    (refConstellation : ReferenceConstellation) : ℝ :=
  let penalty := pointCountPenalty (pointCountDiff userPoints refConstellation)
  let normalizedUser := normalizePoints userPoints
  let normalizedRef := normalizePoints refConstellation.points
  let correspondence := findBestCorrespondence normalizedUser normalizedRef
  let mse := calculateMSE normalizedUser normalizedRef correspondence
  expSimilarity mse * penalty

/-- The MatchResult record built by findBestMatch / calculateAllSimilarities
for a reference shape and a similarity value. -/
def mkResult (R : ReferenceConstellation) (s : ℝ) : MatchResult :=
  ⟨R.id, R.name, s, R.svgPath⟩

/-- Reference data kurage (くらげ座) of src/data/constellations.ts. -/
noncomputable def kurageConstellation : ReferenceConstellation :=
  { id := "kurage", name := "くらげ座"
    points := [⟨0.55, 0.08⟩, ⟨0.28, 0.15⟩, ⟨0.78, 0.18⟩, ⟨0.50, 0.45⟩,
               ⟨0.12, 0.85⟩, ⟨0.31, 0.98⟩, ⟨0.71, 0.88⟩]
    svgPath := "/constellations/kurage.svg" }

/-- Reference data iruka (いるか座). -/
noncomputable def irukaConstellation : ReferenceConstellation :=
  { id := "iruka", name := "いるか座"
    points := [⟨0.12, 0.09⟩, ⟨0.28, 0.16⟩, ⟨0.51, 0.42⟩, ⟨0.91, 0.31⟩,
               ⟨0.67, 0.79⟩, ⟨0.83, 0.93⟩, ⟨0.57, 0.94⟩]
    svgPath := "/constellations/iruka.svg" }

/-- Reference data sasori (さそり座). -/
noncomputable def sasoriConstellation : ReferenceConstellation :=
  { id := "sasori", name := "さそり座"
    points := [⟨0.37, 0.20⟩, ⟨0.15, 0.40⟩, ⟨0.52, 0.39⟩, ⟨0.24, 0.50⟩,
               ⟨0.37, 0.74⟩, ⟨0.90, 0.46⟩, ⟨0.70, 0.99⟩]
    svgPath := "/constellations/sasori.svg" }

/-- Reference data pizza (ピ座). -/
noncomputable def pizzaConstellation : ReferenceConstellation :=
  { id := "pizza", name := "ピ座"
    points := [⟨0.20, 0.90⟩, ⟨0.30, 0.48⟩, ⟨0.55, 0.42⟩, ⟨0.80, 0.50⟩,
               ⟨0.35, 0.60⟩, ⟨0.50, 0.55⟩, ⟨0.65, 0.65⟩]
    svgPath := "/constellations/pizza.svg" }

/-- Reference data sword (座・ソード). -/
noncomputable def swordConstellation : ReferenceConstellation :=
  { id := "sword", name := "座・ソード"
    points := [⟨0.25, 0.10⟩, ⟨0.15, 0.35⟩, ⟨0.35, 0.40⟩, ⟨0.10, 0.60⟩,
               ⟨0.45, 0.65⟩, ⟨0.25, 0.75⟩, ⟨0.25, 0.90⟩]
    svgPath := "/constellations/sword.svg" }

/-- Reference data ei (えい座). -/
noncomputable def eiConstellation : ReferenceConstellation :=
  { id := "ei", name := "えい座"
    points := [⟨0.55, 0.22⟩, ⟨0.08, 0.38⟩, ⟨0.92, 0.55⟩, ⟨0.50, 0.55⟩,
               ⟨0.37, 0.65⟩, ⟨0.20, 0.80⟩, ⟨0.05, 0.95⟩]
    svgPath := "/constellations/ei.svg" }

/-- Reference data gyoza (ぎょう座). -/
noncomputable def gyozaConstellation : ReferenceConstellation :=
  { id := "gyoza", name := "ぎょう座"
    points := [⟨0.05, 0.72⟩, ⟨0.25, 0.58⟩, ⟨0.50, 0.52⟩, ⟨0.75, 0.58⟩,
               ⟨0.87, 0.65⟩, ⟨0.45, 0.78⟩, ⟨0.65, 0.75⟩]
    svgPath := "/constellations/gyoza.svg" }

/-- The fixed reference library, in authoring order. -/
noncomputable def referenceConstellations : List ReferenceConstellation :=
  [kurageConstellation, irukaConstellation, sasoriConstellation,
   pizzaConstellation, swordConstellation, eiConstellation, gyozaConstellation]

/-- The loop of findBestMatch: keep the running best MatchResult and its
similarity (initially null / -1), replacing it on strict improvement. -/
noncomputable def bestLoop (userPoints : List Point2D) :
    List ReferenceConstellation → Option MatchResult × ℝ → Option MatchResult × ℝ
  | [], acc => acc
  | R :: rest, (best, bestSimilarity) =>
    if bestSimilarity < calculateSimilarity userPoints R then
      bestLoop userPoints rest
        (some (mkResult R (calculateSimilarity userPoints R)), calculateSimilarity userPoints R)
    else bestLoop userPoints rest (best, bestSimilarity)

/-- findBestMatch: best reference shape over the library, or none when the
query is empty or the best similarity is under the threshold (default 0.3). -/
noncomputable def findBestMatch (userPoints : List Point2D)
    (threshold : ℝ := 0.3) : Option MatchResult :=
  if userPoints.length = 0 then none
  else
    match bestLoop userPoints referenceConstellations (none, -1) with
    | (some m, _) => if m.similarity < threshold then none else some m
    | (none, _) => none

/-- calculateAllSimilarities: one MatchResult per reference shape, sorted by
descending similarity; `Array.prototype.sort` with the comparator
`(a, b) => b.similarity - a.similarity` is a stable descending sort, modelled
by `mergeSort` with `b.similarity ≤ a.similarity`. -/
noncomputable def calculateAllSimilarities (userPoints : List Point2D) : List MatchResult :=
  if userPoints.length = 0 then []
  else
    (referenceConstellations.map fun R =>
      mkResult R (calculateSimilarity userPoints R)).mergeSort
      fun a b => decide (b.similarity ≤ a.similarity)

/- ===================== helper lemmas ===================== -/

theorem sumFold_pair (l : List Point2D) (a : Point2D) :
    l.foldl (fun acc p => Point2D.mk (acc.x + p.x) (acc.y + p.y)) a =
      ⟨a.x + (l.map Point2D.x).sum, a.y + (l.map Point2D.y).sum⟩ := by
  induction l generalizing a with
  | nil => simp
  | cons p ps ih =>
    simp only [List.foldl_cons, ih, List.map_cons, List.sum_cons]
    ext <;> simp <;> ring

theorem sumFold_real (l : List Point2D) (a : ℝ) :
    l.foldl (fun s p => s + Real.sqrt (p.x * p.x + p.y * p.y)) a =
      a + (l.map fun p => Real.sqrt (p.x * p.x + p.y * p.y)).sum := by
  induction l generalizing a with
  | nil => simp
  | cons p ps ih =>
    simp only [List.foldl_cons, ih, List.map_cons, List.sum_cons]
    ring

theorem sum_map_add_const (l : List Point2D) (f : Point2D → ℝ) (c : ℝ) :
    (l.map fun p => f p + c).sum = (l.map f).sum + l.length * c := by
  induction l with
  | nil => simp
  | cons p ps ih =>
    simp only [List.map_cons, List.sum_cons, ih, List.length_cons]
    push_cast
    ring

theorem sum_map_mul_const (l : List Point2D) (f : Point2D → ℝ) (c : ℝ) :
    (l.map fun p => c * f p).sum = c * (l.map f).sum := by
  induction l with
  | nil => simp
  | cons p ps ih =>
    simp only [List.map_cons, List.sum_cons, ih]
    ring

theorem getCentroid_eq (l : List Point2D) :
    getCentroid l =
      ⟨(l.map Point2D.x).sum / l.length, (l.map Point2D.y).sum / l.length⟩ := by
  unfold getCentroid
  by_cases h : l.length = 0
  · rw [List.length_eq_zero] at h
    subst h
    simp
  · simp only [h, if_false, sumFold_pair]
    ext <;> simp

theorem getScale_eq (l : List Point2D) :
    getScale l =
      if l.length = 0 then 1
      else
        if ((l.map fun p => Real.sqrt (p.x * p.x + p.y * p.y)).sum : ℝ) / l.length = 0 then 1
        else ((l.map fun p => Real.sqrt (p.x * p.x + p.y * p.y)).sum : ℝ) / l.length := by
  unfold getScale
  by_cases h : l.length = 0
  · simp [h]
  · simp only [h, if_false, sumFold_real, zero_add]

theorem sqrtSum_nonneg (l : List Point2D) :
    0 ≤ ((l.map fun p => Real.sqrt (p.x * p.x + p.y * p.y)).sum : ℝ) := by
  apply List.sum_nonneg
  intro a ha
  obtain ⟨p, _, rfl⟩ := List.mem_map.mp ha
  exact Real.sqrt_nonneg _

theorem getScale_pos (l : List Point2D) : 0 < getScale l := by
  rw [getScale_eq]
  by_cases h : l.length = 0
  · simp [h]
  · simp only [h, if_false]
    by_cases h2 : ((l.map fun p => Real.sqrt (p.x * p.x + p.y * p.y)).sum : ℝ) / l.length = 0
    · simp [h2]
    · simp only [h2, if_false]
      have hn : (0 : ℝ) ≤ ((l.map fun p => Real.sqrt (p.x * p.x + p.y * p.y)).sum : ℝ) / l.length :=
        div_nonneg (sqrtSum_nonneg l) (Nat.cast_nonneg _)
      exact lt_of_le_of_ne hn (Ne.symm h2)

theorem distanceSquared_nonneg (a b : Point2D) : 0 ≤ distanceSquared a b := by
  unfold distanceSquared
  nlinarith [sq_nonneg (a.x - b.x), sq_nonneg (a.y - b.y)]

theorem distanceSquared_self (a : Point2D) : distanceSquared a a = 0 := by
  unfold distanceSquared
  ring

theorem distanceSquared_eq_zero_iff (a b : Point2D) :
    distanceSquared a b = 0 ↔ a = b := by
  unfold distanceSquared
  constructor
  · intro h
    have hx : a.x - b.x = 0 := by nlinarith [sq_nonneg (a.x - b.x), sq_nonneg (a.y - b.y)]
    have hy : a.y - b.y = 0 := by nlinarith [sq_nonneg (a.x - b.x), sq_nonneg (a.y - b.y)]
    ext
    · linarith
    · linarith
  · rintro rfl
    ring

theorem centerPoints_length (l : List Point2D) : (centerPoints l).length = l.length := by
  unfold centerPoints
  simp

theorem normalizePoints_length (l : List Point2D) :
    (normalizePoints l).length = l.length := by
  unfold normalizePoints
  simp [centerPoints_length]

theorem sum_eq_zero_of_nonneg (l : List ℝ) (h0 : ∀ x ∈ l, 0 ≤ x) (hs : l.sum = 0) :
    ∀ x ∈ l, x = 0 := by
  induction l with
  | nil => simp
  | cons a as ih =>
    have ha : 0 ≤ a := h0 a (List.mem_cons_self a as)
    have has : 0 ≤ as.sum := List.sum_nonneg fun x hx => h0 x (List.mem_cons_of_mem a hx)
    rw [List.sum_cons] at hs
    have ha0 : a = 0 := by linarith
    have hs0 : as.sum = 0 := by linarith
    intro x hx
    rcases List.mem_cons.mp hx with rfl | hx2
    · exact ha0
    · exact ih (fun y hy => h0 y (List.mem_cons_of_mem a hy)) hs0 x hx2

theorem all_zero_of_sqrtSum_zero (l : List Point2D)
    (h : ((l.map fun p => Real.sqrt (p.x * p.x + p.y * p.y)).sum : ℝ) = 0) :
    ∀ p ∈ l, p = Point2D.mk 0 0 := by
  intro p hp
  have hz : Real.sqrt (p.x * p.x + p.y * p.y) = 0 := by
    apply sum_eq_zero_of_nonneg _ _ h
    · exact List.mem_map.mpr ⟨p, hp, rfl⟩
    · intro x hx
      obtain ⟨q, _, rfl⟩ := List.mem_map.mp hx
      exact Real.sqrt_nonneg _
  have harg : p.x * p.x + p.y * p.y = 0 := by
    have hnn : 0 ≤ p.x * p.x + p.y * p.y := by nlinarith [sq_nonneg p.x, sq_nonneg p.y]
    rcases (Real.sqrt_eq_zero hnn).mp hz with h2
    exact h2
  have hx : p.x = 0 := by nlinarith [sq_nonneg p.x, sq_nonneg p.y]
  have hy : p.y = 0 := by nlinarith [sq_nonneg p.x, sq_nonneg p.y]
  ext
  · exact hx
  · exact hy

theorem centerPoints_def (l : List Point2D) :
    centerPoints l = l.map fun p =>
      Point2D.mk (p.x - (getCentroid l).x) (p.y - (getCentroid l).y) := rfl

theorem normalizePoints_def (l : List Point2D) :
    normalizePoints l = (centerPoints l).map fun p =>
      Point2D.mk (p.x / getScale (centerPoints l)) (p.y / getScale (centerPoints l)) := rfl

theorem centerPoints_translate (l : List Point2D) (dx dy : ℝ) :
    centerPoints (l.map fun p => Point2D.mk (p.x + dx) (p.y + dy)) = centerPoints l := by
  by_cases h : l.length = 0
  · rw [List.length_eq_zero] at h
    subst h
    simp [centerPoints_def]
  · have hn : (l.length : ℝ) ≠ 0 := Nat.cast_ne_zero.mpr h
    rw [centerPoints_def, centerPoints_def, getCentroid_eq, getCentroid_eq]
    simp only [List.map_map, List.length_map]
    have hmx : l.map (Point2D.x ∘ fun p => Point2D.mk (p.x + dx) (p.y + dy)) =
        l.map fun p => Point2D.x p + dx := List.map_congr_left fun p _ => rfl
    have hmy : l.map (Point2D.y ∘ fun p => Point2D.mk (p.x + dx) (p.y + dy)) =
        l.map fun p => Point2D.y p + dy := List.map_congr_left fun p _ => rfl
    rw [hmx, hmy, sum_map_add_const, sum_map_add_const]
    apply List.map_congr_left
    intro p _
    simp only [Function.comp_apply]
    ext
    · show p.x + dx - ((l.map Point2D.x).sum + (l.length : ℝ) * dx) / (l.length : ℝ) =
        p.x - (l.map Point2D.x).sum / (l.length : ℝ)
      field_simp
      ring
    · show p.y + dy - ((l.map Point2D.y).sum + (l.length : ℝ) * dy) / (l.length : ℝ) =
        p.y - (l.map Point2D.y).sum / (l.length : ℝ)
      field_simp
      ring

theorem normalizePoints_translate (l : List Point2D) (dx dy : ℝ) :
    normalizePoints (l.map fun p => Point2D.mk (p.x + dx) (p.y + dy)) = normalizePoints l := by
  unfold normalizePoints
  rw [centerPoints_translate]

theorem centerPoints_smul (l : List Point2D) (k : ℝ) :
    centerPoints (l.map fun p => Point2D.mk (k * p.x) (k * p.y)) =
      (centerPoints l).map fun p => Point2D.mk (k * p.x) (k * p.y) := by
  rw [centerPoints_def, centerPoints_def, getCentroid_eq, getCentroid_eq]
  simp only [List.map_map, List.length_map]
  have hmx : l.map (Point2D.x ∘ fun p => Point2D.mk (k * p.x) (k * p.y)) =
      l.map fun p => k * Point2D.x p := List.map_congr_left fun p _ => rfl
  have hmy : l.map (Point2D.y ∘ fun p => Point2D.mk (k * p.x) (k * p.y)) =
      l.map fun p => k * Point2D.y p := List.map_congr_left fun p _ => rfl
  rw [hmx, hmy, sum_map_mul_const, sum_map_mul_const]
  apply List.map_congr_left
  intro p _
  simp only [Function.comp_apply]
  ext
  · show k * p.x - k * (l.map Point2D.x).sum / (l.length : ℝ) =
      k * (p.x - (l.map Point2D.x).sum / (l.length : ℝ))
    rw [mul_div_assoc]
    ring
  · show k * p.y - k * (l.map Point2D.y).sum / (l.length : ℝ) =
      k * (p.y - (l.map Point2D.y).sum / (l.length : ℝ))
    rw [mul_div_assoc]
    ring

theorem sqrt_term_smul (k : ℝ) (hk : 0 ≤ k) (p : Point2D) :
    Real.sqrt (k * p.x * (k * p.x) + k * p.y * (k * p.y)) =
      k * Real.sqrt (p.x * p.x + p.y * p.y) := by
  rw [show k * p.x * (k * p.x) + k * p.y * (k * p.y) = k ^ 2 * (p.x * p.x + p.y * p.y) by ring]
  rw [Real.sqrt_mul (sq_nonneg k), Real.sqrt_sq hk]

theorem sqrtSum_smul (l : List Point2D) (k : ℝ) (hk : 0 ≤ k) :
    (((l.map fun p => Point2D.mk (k * p.x) (k * p.y)).map
        fun p => Real.sqrt (p.x * p.x + p.y * p.y)).sum : ℝ) =
      k * ((l.map fun p => Real.sqrt (p.x * p.x + p.y * p.y)).sum : ℝ) := by
  rw [List.map_map]
  rw [show ((fun p => Real.sqrt (p.x * p.x + p.y * p.y)) ∘
      fun p => Point2D.mk (k * p.x) (k * p.y)) =
      fun p : Point2D => k * Real.sqrt (p.x * p.x + p.y * p.y) from
    funext fun p => sqrt_term_smul k hk p]
  exact sum_map_mul_const l _ k

theorem normalizePoints_smul (l : List Point2D) (k : ℝ) (hk : 0 < k) :
    normalizePoints (l.map fun p => Point2D.mk (k * p.x) (k * p.y)) = normalizePoints l := by
  rw [normalizePoints_def, normalizePoints_def, centerPoints_smul]
  by_cases h : l.length = 0
  · rw [List.length_eq_zero] at h
    subst h
    simp [centerPoints_def]
  · have hn : (l.length : ℝ) ≠ 0 := Nat.cast_ne_zero.mpr h
    have hcl : (centerPoints l).length = l.length := centerPoints_length l
    rw [getScale_eq, getScale_eq]
    simp only [List.length_map, hcl, h, if_false, sqrtSum_smul _ k (le_of_lt hk)]
    by_cases h2 :
        (((centerPoints l).map fun p => Real.sqrt (p.x * p.x + p.y * p.y)).sum : ℝ) /
          (l.length : ℝ) = 0
    · have ht : (((centerPoints l).map fun p => Real.sqrt (p.x * p.x + p.y * p.y)).sum : ℝ) = 0 := by
        rcases div_eq_zero_iff.mp h2 with h3 | h3
        · exact h3
        · exact absurd h3 hn
      have hall := all_zero_of_sqrtSum_zero _ ht
      rw [ht, mul_zero]
      simp only [zero_div, if_pos rfl]
      rw [List.map_map]
      apply List.map_congr_left
      intro p hp
      have hp0 := hall p hp
      subst hp0
      simp
    · have h2k : k * (((centerPoints l).map fun p => Real.sqrt (p.x * p.x + p.y * p.y)).sum : ℝ) /
          (l.length : ℝ) ≠ 0 := by
        rw [mul_div_assoc]
        exact mul_ne_zero (ne_of_gt hk) h2
      simp only [h2k, if_false, h2]
      rw [List.map_map]
      apply List.map_congr_left
      intro p _
      dsimp only [Function.comp_apply]
      ext
      · rw [mul_div_assoc k _ (l.length : ℝ)]
        exact mul_div_mul_left p.x _ (ne_of_gt hk)
      · rw [mul_div_assoc k _ (l.length : ℝ)]
        exact mul_div_mul_left p.y _ (ne_of_gt hk)

theorem calculateSimilarity_congr (Q1 Q2 : List Point2D) (R : ReferenceConstellation)
    (hlen : Q1.length = Q2.length) (hnorm : normalizePoints Q1 = normalizePoints Q2) :
    calculateSimilarity Q1 R = calculateSimilarity Q2 R := by
  unfold calculateSimilarity pointCountDiff
  rw [hlen, hnorm]

theorem sum_map_const_of_all (l : List Point2D) (f : Point2D → ℝ) (c : ℝ)
    (h : ∀ a ∈ l, f a = c) : (l.map f).sum = l.length * c := by
  induction l with
  | nil => simp
  | cons a as ih =>
    simp only [List.map_cons, List.sum_cons, List.length_cons]
    rw [h a (List.mem_cons_self a as), ih fun b hb => h b (List.mem_cons_of_mem a hb)]
    push_cast
    ring

/-- C4: the similarity score is invariant under uniform translation of the
query point set, and under uniform scaling by any positive factor. -/
theorem c4_similarity_translation_scale_invariant (Q : List Point2D)
    (R : ReferenceConstellation) (dx dy k : ℝ) (hk : 0 < k) :
    calculateSimilarity (Q.map fun p => Point2D.mk (p.x + dx) (p.y + dy)) R =
      calculateSimilarity Q R ∧
    calculateSimilarity (Q.map fun p => Point2D.mk (k * p.x) (k * p.y)) R =
      calculateSimilarity Q R := by
  constructor
  · exact calculateSimilarity_congr _ _ R (by simp) (normalizePoints_translate Q dx dy)
  · exact calculateSimilarity_congr _ _ R (by simp) (normalizePoints_smul Q k hk)

/-- Witness for C4: a concrete two-point query, offset (1,1) and factor 2. -/
theorem c4_witness :
    calculateSimilarity ([Point2D.mk 0 0, Point2D.mk 1 0].map fun p =>
        Point2D.mk (p.x + 1) (p.y + 1)) kurageConstellation =
      calculateSimilarity [Point2D.mk 0 0, Point2D.mk 1 0] kurageConstellation ∧
    calculateSimilarity ([Point2D.mk 0 0, Point2D.mk 1 0].map fun p =>
        Point2D.mk (2 * p.x) (2 * p.y)) kurageConstellation =
      calculateSimilarity [Point2D.mk 0 0, Point2D.mk 1 0] kurageConstellation :=
  c4_similarity_translation_scale_invariant [Point2D.mk 0 0, Point2D.mk 1 0]
    kurageConstellation 1 1 2 (by norm_num)

/-- C8: normalization substitutes the fallback scale 1 instead of dividing by
zero on degenerate geometry (single point or all points identical); the scale
is always strictly positive; and every reference shape is still scored for a
non-empty query (the whole library appears in the ranking), so one shape's
degenerate geometry cannot abort the scoring of the others. -/
theorem c8_degenerate_geometry_fallback (ps Q : List Point2D) (p : Point2D) :
    0 < getScale ps ∧
    normalizePoints [p] = [Point2D.mk 0 0] ∧
    ((∀ q ∈ ps, q = p) → getScale (centerPoints ps) = 1) ∧
    (calculateAllSimilarities Q).length =
      (if Q.length = 0 then 0 else referenceConstellations.length) := by
  refine ⟨getScale_pos ps, ?_, ?_, ?_⟩
  · have hc : getCentroid [p] = p := by
      rw [getCentroid_eq]
      simp
    have hcp : centerPoints [p] = [Point2D.mk 0 0] := by
      rw [centerPoints_def, hc]
      simp
    rw [normalizePoints_def, hcp, getScale_eq]
    simp
  · intro hall
    by_cases h : ps.length = 0
    · rw [List.length_eq_zero] at h
      subst h
      rw [getScale_eq]
      simp [centerPoints_def]
    · have hn : (ps.length : ℝ) ≠ 0 := Nat.cast_ne_zero.mpr h
      have hcx : (ps.map Point2D.x).sum = ps.length * p.x :=
        sum_map_const_of_all ps _ _ fun a ha => by rw [hall a ha]
      have hcy : (ps.map Point2D.y).sum = ps.length * p.y :=
        sum_map_const_of_all ps _ _ fun a ha => by rw [hall a ha]
      have hsz : (((centerPoints ps).map fun q =>
          Real.sqrt (q.x * q.x + q.y * q.y)).sum : ℝ) = 0 := by
        have : ∀ q ∈ centerPoints ps, Real.sqrt (q.x * q.x + q.y * q.y) = 0 := by
          intro q hq
          rw [centerPoints_def] at hq
          obtain ⟨a, ha, rfl⟩ := List.mem_map.mp hq
          rw [hall a ha, getCentroid_eq]
          dsimp only
          rw [hcx, hcy, mul_div_cancel_left₀ p.x hn, mul_div_cancel_left₀ p.y hn]
          simp
        rw [sum_map_const_of_all _ _ 0 this]
        ring
      rw [getScale_eq]
      have hlen : (centerPoints ps).length = ps.length := centerPoints_length ps
      rw [hlen]
      simp [h, hsz]
  · by_cases hq : Q.length = 0
    · simp [calculateAllSimilarities, hq]
    · simp [calculateAllSimilarities, hq]

/- ======== specification of the greedy nearest-available search ======== -/

/-- The candidate (index, distance) pairs scanned by findNearestAux:
indices from `j` upward that are not in `used`, in scan order. -/
noncomputable def candidates (p : Point2D) : List Point2D → ℕ → Finset ℕ → List (ℕ × ℝ)
  | [], _, _ => []
  | r :: rs, j, used =>
    if j ∈ used then candidates p rs (j + 1) used
    else (j, distanceSquared p r) :: candidates p rs (j + 1) used

theorem findNearestAux_eq_foldl (p : Point2D) (rs : List Point2D) :
    ∀ (j : ℕ) (used : Finset ℕ) (b : Option (ℕ × ℝ)),
      findNearestAux p rs j used b = (candidates p rs j used).foldl stepBest b := by
  induction rs with
  | nil => intro j used b; rfl
  | cons r rs ih =>
    intro j used b
    by_cases h : j ∈ used
    · rw [findNearestAux, candidates]
      simp only [if_pos h]
      exact ih (j + 1) used b
    · rw [findNearestAux, candidates]
      simp only [if_neg h, List.foldl_cons]
      exact ih (j + 1) used _

theorem candidates_mem (p : Point2D) (rs : List Point2D) :
    ∀ (j : ℕ) (used : Finset ℕ) (i : ℕ) (d : ℝ),
      (i, d) ∈ candidates p rs j used ↔
        ∃ k, k < rs.length ∧ i = j + k ∧ i ∉ used ∧
          d = distanceSquared p (rs.getD k (Point2D.mk 0 0)) := by
  induction rs with
  | nil => intro j used i d; simp [candidates]
  | cons r rs ih =>
    intro j used i d
    by_cases h : j ∈ used
    · rw [candidates]
      simp only [if_pos h]
      rw [ih (j + 1) used i d]
      constructor
      · rintro ⟨k, hk, rfl, hni, rfl⟩
        exact ⟨k + 1, by simpa using hk, by omega, hni, by simp⟩
      · rintro ⟨k, hk, rfl, hni, hd⟩
        cases k with
        | zero => exact absurd h (by simpa using hni)
        | succ k2 =>
          refine ⟨k2, by simpa using hk, by omega, hni, ?_⟩
          simpa using hd
    · rw [candidates]
      simp only [if_neg h, List.mem_cons]
      rw [ih (j + 1) used i d]
      constructor
      · rintro (heq | ⟨k, hk, rfl, hni, rfl⟩)
        · obtain ⟨rfl, rfl⟩ := Prod.mk.injEq .. |>.mp heq
          exact ⟨0, by simp, by omega, h, by simp⟩
        · exact ⟨k + 1, by simpa using hk, by omega, hni, by simp⟩
      · rintro ⟨k, hk, rfl, hni, hd⟩
        cases k with
        | zero =>
          left
          simp only [Nat.add_zero] at hni hd ⊢
          simp only [List.getD_cons_zero] at hd
          rw [hd]
        | succ k2 =>
          right
          refine ⟨k2, by simpa using hk, by omega, hni, ?_⟩
          simpa using hd

theorem candidates_lb (p : Point2D) (rs : List Point2D) :
    ∀ (j : ℕ) (used : Finset ℕ) (c : ℕ × ℝ), c ∈ candidates p rs j used → j ≤ c.1 := by
  intro j used c hc
  obtain ⟨i, d⟩ := c
  obtain ⟨k, _, rfl, _, _⟩ := (candidates_mem p rs j used i d).mp hc
  omega

theorem candidates_sorted (p : Point2D) (rs : List Point2D) :
    ∀ (j : ℕ) (used : Finset ℕ),
      List.Pairwise (fun a b : ℕ × ℝ => a.1 < b.1) (candidates p rs j used) := by
  induction rs with
  | nil => intro j used; simp [candidates]
  | cons r rs ih =>
    intro j used
    by_cases h : j ∈ used
    · rw [candidates]
      simp only [if_pos h]
      exact ih (j + 1) used
    · rw [candidates]
      simp only [if_neg h]
      refine List.pairwise_cons.mpr ⟨?_, ih (j + 1) used⟩
      intro c hc
      have := candidates_lb p rs (j + 1) used c hc
      omega

theorem candidates_eq_nil_iff (p : Point2D) (rs : List Point2D) (used : Finset ℕ) :
    candidates p rs 0 used = [] ↔ ∀ k < rs.length, k ∈ used := by
  constructor
  · intro h k hk
    by_contra hku
    have : (k, distanceSquared p (rs.getD k (Point2D.mk 0 0))) ∈ candidates p rs 0 used :=
      (candidates_mem p rs 0 used k _).mpr ⟨k, hk, by omega, hku, rfl⟩
    rw [h] at this
    exact absurd this (List.not_mem_nil _)
  · intro h
    rw [List.eq_nil_iff_forall_not_mem]
    intro c hc
    obtain ⟨i, d⟩ := c
    obtain ⟨k, hk, rfl, hni, _⟩ := (candidates_mem p rs 0 used i d).mp hc
    exact hni (h _ (by omega))

theorem foldl_stepBest_spec (M : List (ℕ × ℝ)) :
    ∀ (bi : ℕ) (bd : ℝ), (∀ c ∈ M, bi < c.1) →
      List.Pairwise (fun a b : ℕ × ℝ => a.1 < b.1) M →
      ∃ ri rd, M.foldl stepBest (some (bi, bd)) = some (ri, rd) ∧
        ((ri = bi ∧ rd = bd) ∨ ((ri, rd) ∈ M ∧ rd < bd)) ∧
        (∀ c ∈ M, rd ≤ c.2) ∧ rd ≤ bd ∧
        (∀ c ∈ M, c.1 < ri → rd < c.2) ∧ (bi < ri → rd < bd) := by
  induction M with
  | nil =>
    intro bi bd _ _
    exact ⟨bi, bd, rfl, Or.inl ⟨rfl, rfl⟩, by simp, le_refl bd, by simp,
      fun h => absurd h (lt_irrefl bi)⟩
  | cons c M ih =>
    intro bi bd hgt hsort
    obtain ⟨ci, cd⟩ := c
    have hhead : bi < ci := hgt (ci, cd) (List.mem_cons_self _ _)
    obtain ⟨hgt2, hsort2⟩ := List.pairwise_cons.mp hsort
    by_cases hcd : cd < bd
    · obtain ⟨ri, rd, heq, hor, hmin, hle, hfirst, hstrict⟩ :=
        ih ci cd hgt2 hsort2
      refine ⟨ri, rd, ?_, ?_, ?_, ?_, ?_, ?_⟩
      · rw [List.foldl_cons]
        rw [show stepBest (some (bi, bd)) (ci, cd) = some (ci, cd) by simp [stepBest, hcd]]
        exact heq
      · rcases hor with ⟨rfl, rfl⟩ | ⟨hm, hlt⟩
        · exact Or.inr ⟨List.mem_cons_self _ _, hcd⟩
        · exact Or.inr ⟨List.mem_cons_of_mem _ hm, lt_trans hlt hcd⟩
      · intro x hx
        rcases List.mem_cons.mp hx with rfl | hx2
        · exact hle
        · exact hmin x hx2
      · exact le_of_lt (lt_of_le_of_lt hle hcd)
      · intro x hx hlt
        rcases List.mem_cons.mp hx with rfl | hx2
        · exact hstrict hlt
        · exact hfirst x hx2 hlt
      · intro _
        exact lt_of_le_of_lt hle hcd
    · obtain ⟨ri, rd, heq, hor, hmin, hle, hfirst, hstrict⟩ :=
        ih bi bd (fun x hx => hgt x (List.mem_cons_of_mem _ hx)) hsort2
      have hbdcd : bd ≤ cd := le_of_not_lt hcd
      refine ⟨ri, rd, ?_, ?_, ?_, ?_, ?_, ?_⟩
      · rw [List.foldl_cons]
        rw [show stepBest (some (bi, bd)) (ci, cd) = some (bi, bd) by simp [stepBest, hcd]]
        exact heq
      · rcases hor with h1 | ⟨hm, hlt⟩
        · exact Or.inl h1
        · exact Or.inr ⟨List.mem_cons_of_mem _ hm, hlt⟩
      · intro x hx
        rcases List.mem_cons.mp hx with rfl | hx2
        · exact le_trans hle hbdcd
        · exact hmin x hx2
      · exact hle
      · intro x hx hlt
        rcases List.mem_cons.mp hx with rfl | hx2
        · have : bi < ri := lt_trans hhead hlt
          exact lt_of_lt_of_le (hstrict this) hbdcd
        · exact hfirst x hx2 hlt
      · exact hstrict

theorem foldl_stepBest_none (M : List (ℕ × ℝ))
    (hsort : List.Pairwise (fun a b : ℕ × ℝ => a.1 < b.1) M) :
    (M = [] ∧ M.foldl stepBest none = none) ∨
    ∃ ri rd, M.foldl stepBest none = some (ri, rd) ∧ (ri, rd) ∈ M ∧
      (∀ c ∈ M, rd ≤ c.2) ∧ (∀ c ∈ M, c.1 < ri → rd < c.2) := by
  cases M with
  | nil => exact Or.inl ⟨rfl, rfl⟩
  | cons c M =>
    obtain ⟨ci, cd⟩ := c
    obtain ⟨hgt, hsort2⟩ := List.pairwise_cons.mp hsort
    obtain ⟨ri, rd, heq, hor, hmin, hle, hfirst, hstrict⟩ :=
      foldl_stepBest_spec M ci cd hgt hsort2
    refine Or.inr ⟨ri, rd, ?_, ?_, ?_, ?_⟩
    · rw [List.foldl_cons]
      exact heq
    · rcases hor with ⟨rfl, rfl⟩ | ⟨hm, _⟩
      · exact List.mem_cons_self _ _
      · exact List.mem_cons_of_mem _ hm
    · intro x hx
      rcases List.mem_cons.mp hx with rfl | hx2
      · exact hle
      · exact hmin x hx2
    · intro x hx hlt
      rcases List.mem_cons.mp hx with rfl | hx2
      · exact hstrict hlt
      · exact hfirst x hx2 hlt

theorem findNearestAux_none_iff (p : Point2D) (refs : List Point2D) (used : Finset ℕ) :
    findNearestAux p refs 0 used none = none ↔ ∀ k < refs.length, k ∈ used := by
  rw [findNearestAux_eq_foldl]
  rcases foldl_stepBest_none (candidates p refs 0 used) (candidates_sorted p refs 0 used) with
    ⟨hnil, hres⟩ | ⟨ri, rd, hres, _, _, _⟩
  · rw [hres, ← candidates_eq_nil_iff p refs used]
    simp [hnil]
  · rw [hres, ← candidates_eq_nil_iff p refs used]
    constructor
    · intro h
      exact absurd h (by simp)
    · intro h
      rw [h] at hres
      simp at hres

theorem findNearestAux_some_spec (p : Point2D) (refs : List Point2D) (used : Finset ℕ)
    (i : ℕ) (d : ℝ) (h : findNearestAux p refs 0 used none = some (i, d)) :
    i < refs.length ∧ i ∉ used ∧ d = distanceSquared p (refs.getD i (Point2D.mk 0 0)) ∧
    (∀ k < refs.length, k ∉ used →
      d ≤ distanceSquared p (refs.getD k (Point2D.mk 0 0))) ∧
    (∀ k < refs.length, k ∉ used → k < i →
      d < distanceSquared p (refs.getD k (Point2D.mk 0 0))) := by
  rw [findNearestAux_eq_foldl] at h
  rcases foldl_stepBest_none (candidates p refs 0 used) (candidates_sorted p refs 0 used) with
    ⟨_, hres⟩ | ⟨ri, rd, hres, hmem, hmin, hfirst⟩
  · rw [hres] at h
    exact absurd h (by simp)
  · rw [hres] at h
    obtain ⟨rfl, rfl⟩ := Prod.mk.injEq .. |>.mp (Option.some.injEq .. |>.mp h)
    obtain ⟨k, hk, rfl, hni, hd⟩ := (candidates_mem p refs 0 used _ _).mp hmem
    refine ⟨by omega, hni, by simpa using hd, ?_, ?_⟩
    · intro k2 hk2 hk2u
      have : (k2, distanceSquared p (refs.getD k2 (Point2D.mk 0 0))) ∈
          candidates p refs 0 used :=
        (candidates_mem p refs 0 used k2 _).mpr ⟨k2, hk2, by omega, hk2u, rfl⟩
      exact hmin _ this
    · intro k2 hk2 hk2u hlt
      have : (k2, distanceSquared p (refs.getD k2 (Point2D.mk 0 0))) ∈
          candidates p refs 0 used :=
        (candidates_mem p refs 0 used k2 _).mpr ⟨k2, hk2, by omega, hk2u, rfl⟩
      exact hfirst _ this (by omega)

/-- The set of reference indices recorded in a correspondence prefix
(entries ≥ 0, i.e. every entry other than the -1 sentinel). -/
def assignedSet : List ℤ → Finset ℕ
  | [] => ∅
  | z :: l => if 0 ≤ z then insert z.toNat (assignedSet l) else assignedSet l

theorem assignedSet_cons_neg (l : List ℤ) : assignedSet (-1 :: l) = assignedSet l := by
  rw [assignedSet]
  norm_num

theorem assignedSet_cons_nat (j : ℕ) (l : List ℤ) :
    assignedSet ((j : ℤ) :: l) = insert j (assignedSet l) := by
  rw [assignedSet]
  simp

theorem assignedSet_mem (l : List ℤ) (j : ℕ) :
    j ∈ assignedSet l ↔ ∃ k, k < l.length ∧ l.getD k (-1) = (j : ℤ) := by
  induction l with
  | nil => simp [assignedSet]
  | cons z l ih =>
    by_cases hz : 0 ≤ z
    · rw [assignedSet]
      simp only [if_pos hz, Finset.mem_insert, ih]
      constructor
      · rintro (rfl | ⟨k, hk, hget⟩)
        · exact ⟨0, by simp, by simp [Int.toNat_of_nonneg hz]⟩
        · exact ⟨k + 1, by simpa using hk, by simpa using hget⟩
      · rintro ⟨k, hk, hget⟩
        cases k with
        | zero =>
          left
          simp only [List.getD_cons_zero] at hget
          omega
        | succ k2 =>
          right
          exact ⟨k2, by simpa using hk, by simpa using hget⟩
    · rw [assignedSet]
      simp only [if_neg hz, ih]
      constructor
      · rintro ⟨k, hk, hget⟩
        exact ⟨k + 1, by simpa using hk, by simpa using hget⟩
      · rintro ⟨k, hk, hget⟩
        cases k with
        | zero =>
          simp only [List.getD_cons_zero] at hget
          omega
        | succ k2 =>
          exact ⟨k2, by simpa using hk, by simpa using hget⟩

/-- What one entry of the greedy correspondence promises, given the set `U`
of reference indices unavailable when it was produced: -1 exactly when every
reference index is unavailable; otherwise an available index whose distance
to the query point is minimal, and least among the minimizers. -/
def NearestCond (p : Point2D) (refs : List Point2D) (U : Finset ℕ) (z : ℤ) : Prop :=
  (z = -1 ↔ ∀ k < refs.length, k ∈ U) ∧
  ∀ j : ℕ, z = (j : ℤ) →
    j < refs.length ∧ j ∉ U ∧
    (∀ k < refs.length, k ∉ U →
      distanceSquared p (refs.getD j (Point2D.mk 0 0)) ≤
        distanceSquared p (refs.getD k (Point2D.mk 0 0))) ∧
    (∀ k < refs.length, k ∉ U → k < j →
      distanceSquared p (refs.getD j (Point2D.mk 0 0)) <
        distanceSquared p (refs.getD k (Point2D.mk 0 0)))

theorem nearestCond_none (p : Point2D) (refs : List Point2D) (used : Finset ℕ)
    (h : findNearestAux p refs 0 used none = none) :
    NearestCond p refs used (-1) := by
  constructor
  · simp only [true_iff]
    exact (findNearestAux_none_iff p refs used).mp h
  · intro j hj
    omega

theorem nearestCond_some (p : Point2D) (refs : List Point2D) (used : Finset ℕ)
    (j : ℕ) (d : ℝ) (h : findNearestAux p refs 0 used none = some (j, d)) :
    NearestCond p refs used (j : ℤ) := by
  obtain ⟨hjlen, hju, hd, hmin, hfirst⟩ := findNearestAux_some_spec p refs used j d h
  constructor
  · constructor
    · intro hj
      omega
    · intro hall
      have := (findNearestAux_none_iff p refs used).mpr hall
      rw [h] at this
      exact absurd this (by simp)
  · intro j2 hj2
    have : j = j2 := by omega
    subst this
    subst hd
    exact ⟨hjlen, hju, hmin, hfirst⟩

theorem correspondenceGo_length (refs : List Point2D) :
    ∀ (ps : List Point2D) (used : Finset ℕ),
      (correspondenceGo refs ps used).length = ps.length := by
  intro ps
  induction ps with
  | nil => intro used; rfl
  | cons q ps ih =>
    intro used
    rw [correspondenceGo]
    cases hfn : findNearestAux q refs 0 used none with
    | none => simpa using ih used
    | some c =>
      obtain ⟨j, d⟩ := c
      simpa using ih (insert j used)

theorem correspondenceGo_spec (refs : List Point2D) :
    ∀ (ps : List Point2D) (used : Finset ℕ) (i : ℕ), i < ps.length →
      NearestCond (ps.getD i (Point2D.mk 0 0)) refs
        (used ∪ assignedSet ((correspondenceGo refs ps used).take i))
        ((correspondenceGo refs ps used).getD i (-1)) := by
  intro ps
  induction ps with
  | nil =>
    intro used i hi
    exact absurd hi (by simp)
  | cons q ps ih =>
    intro used i hi
    rw [correspondenceGo]
    cases hfn : findNearestAux q refs 0 used none with
    | none =>
      cases i with
      | zero =>
        simp only [List.take_zero, List.getD_cons_zero]
        rw [show assignedSet [] = ∅ from rfl, Finset.union_empty]
        exact nearestCond_none q refs used hfn
      | succ i2 =>
        simp only [List.take_succ_cons, List.getD_cons_succ, List.getD_cons_succ,
          assignedSet_cons_neg]
        exact ih used i2 (by simpa using hi)
    | some c =>
      obtain ⟨j, d⟩ := c
      cases i with
      | zero =>
        simp only [List.take_zero, List.getD_cons_zero]
        rw [show assignedSet [] = ∅ from rfl, Finset.union_empty]
        exact nearestCond_some q refs used j d hfn
      | succ i2 =>
        simp only [List.take_succ_cons, List.getD_cons_succ, List.getD_cons_succ,
          assignedSet_cons_nat]
        rw [Finset.union_insert, ← Finset.insert_union]
        exact ih (insert j used) i2 (by simpa using hi)

theorem getD_take (l : List ℤ) (i k : ℕ) (hk : k < i) :
    (l.take i).getD k (-1) = l.getD k (-1) := by
  simp only [List.getD_eq_getElem?_getD, List.getElem?_take_of_lt hk]

theorem getD_of_le (l : List ℤ) (k : ℕ) (hk : l.length ≤ k) : l.getD k (-1) = -1 := by
  simp only [List.getD_eq_getElem?_getD, List.getElem?_eq_none hk, Option.getD_none]

theorem assignedSet_take_mem (c : List ℤ) (i j : ℕ) :
    j ∈ assignedSet (c.take i) ↔ ∃ k, k < i ∧ c.getD k (-1) = (j : ℤ) := by
  rw [assignedSet_mem]
  constructor
  · rintro ⟨k, hk, hget⟩
    rw [List.length_take] at hk
    refine ⟨k, by omega, ?_⟩
    rw [← getD_take c i k (by omega)]
    exact hget
  · rintro ⟨k, hki, hget⟩
    have hkc : k < c.length := by
      by_contra hge
      rw [getD_of_le c k (by omega)] at hget
      omega
    refine ⟨k, by rw [List.length_take]; omega, ?_⟩
    rw [getD_take c i k hki]
    exact hget

/-- C3: the greedy correspondence processes query points in input order; each
entry is either -1 (exactly when every reference index was already assigned
earlier) or a reference index that was not assigned at any earlier position,
has minimal squared distance among the still-free indices, and is the least
index attaining that minimum; and no reference index is assigned twice. -/
theorem c3_correspondence_greedy_nearest_unused (u refs : List Point2D) :
    (findBestCorrespondence u refs).length = u.length ∧
    (∀ i, i < u.length →
      ((findBestCorrespondence u refs).getD i (-1) = -1 ↔
        ∀ j < refs.length, ∃ k, k < i ∧
          (findBestCorrespondence u refs).getD k (-1) = (j : ℤ)) ∧
      (∀ j : ℕ, (findBestCorrespondence u refs).getD i (-1) = (j : ℤ) →
        j < refs.length ∧
        (¬ ∃ k, k < i ∧ (findBestCorrespondence u refs).getD k (-1) = (j : ℤ)) ∧
        (∀ j2 < refs.length,
          (¬ ∃ k, k < i ∧ (findBestCorrespondence u refs).getD k (-1) = (j2 : ℤ)) →
          distanceSquared (u.getD i (Point2D.mk 0 0)) (refs.getD j (Point2D.mk 0 0)) ≤
            distanceSquared (u.getD i (Point2D.mk 0 0)) (refs.getD j2 (Point2D.mk 0 0))) ∧
        (∀ j2 < refs.length,
          (¬ ∃ k, k < i ∧ (findBestCorrespondence u refs).getD k (-1) = (j2 : ℤ)) →
          j2 < j →
          distanceSquared (u.getD i (Point2D.mk 0 0)) (refs.getD j (Point2D.mk 0 0)) <
            distanceSquared (u.getD i (Point2D.mk 0 0)) (refs.getD j2 (Point2D.mk 0 0))))) ∧
    (∀ i1 i2, i1 < i2 → i2 < u.length → ∀ j : ℕ,
      (findBestCorrespondence u refs).getD i1 (-1) = (j : ℤ) →
      (findBestCorrespondence u refs).getD i2 (-1) ≠ (j : ℤ)) := by
  have hlen : (findBestCorrespondence u refs).length = u.length :=
    correspondenceGo_length refs u ∅
  have hspec : ∀ i, i < u.length →
      NearestCond (u.getD i (Point2D.mk 0 0)) refs
        (assignedSet ((findBestCorrespondence u refs).take i))
        ((findBestCorrespondence u refs).getD i (-1)) := by
    intro i hi
    have h := correspondenceGo_spec refs u ∅ i hi
    rwa [Finset.empty_union] at h
  refine ⟨hlen, ?_, ?_⟩
  · intro i hi
    obtain ⟨hiff, hsome⟩ := hspec i hi
    constructor
    · rw [hiff]
      constructor
      · intro h j hj
        exact (assignedSet_take_mem _ i j).mp (h j hj)
      · intro h j hj
        exact (assignedSet_take_mem _ i j).mpr (h j hj)
    · intro j hj
      obtain ⟨h1, h2, h3, h4⟩ := hsome j hj
      refine ⟨h1, fun hex => h2 ((assignedSet_take_mem _ i j).mpr hex), ?_, ?_⟩
      · intro j2 hj2 hnex
        exact h3 j2 hj2 fun hmem => hnex ((assignedSet_take_mem _ i j2).mp hmem)
      · intro j2 hj2 hnex hlt
        exact h4 j2 hj2 (fun hmem => hnex ((assignedSet_take_mem _ i j2).mp hmem)) hlt
  · intro i1 i2 h12 hi2 j hget1 hget2
    obtain ⟨_, hsome⟩ := hspec i2 hi2
    obtain ⟨_, h2, _, _⟩ := hsome j hget2
    exact h2 ((assignedSet_take_mem _ i2 j).mpr ⟨i1, h12, hget1⟩)

theorem assignedSet_card_le (l : List ℤ) : (assignedSet l).card ≤ l.length := by
  induction l with
  | nil => simp [assignedSet]
  | cons z l ih =>
    rw [assignedSet]
    by_cases hz : 0 ≤ z
    · simp only [if_pos hz, List.length_cons]
      calc (insert z.toNat (assignedSet l)).card ≤ (assignedSet l).card + 1 :=
            Finset.card_insert_le _ _
        _ ≤ l.length + 1 := by omega
    · simp only [if_neg hz, List.length_cons]
      omega

theorem correspondenceGo_entry_shape (refs : List Point2D) :
    ∀ (ps : List Point2D) (used : Finset ℕ) (i : ℕ),
      (correspondenceGo refs ps used).getD i (-1) = -1 ∨
      ∃ j : ℕ, (correspondenceGo refs ps used).getD i (-1) = (j : ℤ) := by
  intro ps
  induction ps with
  | nil =>
    intro used i
    left
    simp [correspondenceGo]
  | cons q ps ih =>
    intro used i
    rw [correspondenceGo]
    cases hfn : findNearestAux q refs 0 used none with
    | none =>
      cases i with
      | zero => left; simp
      | succ i2 => simpa using ih used i2
    | some c =>
      obtain ⟨j, d⟩ := c
      cases i with
      | zero => right; exact ⟨j, by simp⟩
      | succ i2 => simpa using ih (insert j used) i2

theorem calculateMSE_def (u r : List Point2D) (c : List ℤ) :
    calculateMSE u r c =
      if 0 < (mseTotals u r c).2 then
        some ((mseTotals u r c).1 / ((mseTotals u r c).2 : ℝ))
      else none := rfl

theorem mseFold_count_mono (refs : List Point2D) (L : List (Point2D × ℤ)) :
    ∀ (a : ℝ) (n : ℕ), n ≤ (L.foldl (mseStep refs) (a, n)).2 := by
  induction L with
  | nil => intro a n; simp
  | cons pc L ih =>
    intro a n
    rw [List.foldl_cons]
    by_cases hc : 0 ≤ pc.2 ∧ pc.2 < (refs.length : ℤ)
    · rw [show mseStep refs (a, n) pc =
        (a + distanceSquared pc.1 (refs.getD pc.2.toNat (Point2D.mk 0 0)), n + 1) by
          simp [mseStep, hc]]
      have := ih (a + distanceSquared pc.1 (refs.getD pc.2.toNat (Point2D.mk 0 0))) (n + 1)
      omega
    · rw [show mseStep refs (a, n) pc = (a, n) by simp [mseStep, hc]]
      exact ih a n

theorem mseFold_all_valid (refs : List Point2D) (L : List (Point2D × ℤ))
    (h : ∀ pc ∈ L, 0 ≤ pc.2 ∧ pc.2 < (refs.length : ℤ)) :
    ∀ (a : ℝ) (n : ℕ), (L.foldl (mseStep refs) (a, n)).2 = n + L.length := by
  induction L with
  | nil => intro a n; simp
  | cons pc L ih =>
    intro a n
    rw [List.foldl_cons]
    have hc := h pc (List.mem_cons_self _ _)
    rw [show mseStep refs (a, n) pc =
      (a + distanceSquared pc.1 (refs.getD pc.2.toNat (Point2D.mk 0 0)), n + 1) by
        simp [mseStep, hc]]
    rw [ih (fun x hx => h x (List.mem_cons_of_mem _ hx)) _ (n + 1)]
    simp
    omega

theorem mseFold_zero (refs : List Point2D) (L : List (Point2D × ℤ))
    (h : ∀ pc ∈ L, (0 ≤ pc.2 ∧ pc.2 < (refs.length : ℤ)) ∧
      distanceSquared pc.1 (refs.getD pc.2.toNat (Point2D.mk 0 0)) = 0) :
    ∀ (a : ℝ) (n : ℕ), L.foldl (mseStep refs) (a, n) = (a, n + L.length) := by
  induction L with
  | nil => intro a n; simp
  | cons pc L ih =>
    intro a n
    rw [List.foldl_cons]
    obtain ⟨hc, hd⟩ := h pc (List.mem_cons_self _ _)
    rw [show mseStep refs (a, n) pc = (a, n + 1) from by
      simp only [mseStep]
      rw [if_pos hc, hd, add_zero]]
    rw [ih (fun x hx => h x (List.mem_cons_of_mem _ hx)) a (n + 1)]
    simp
    omega

/-- C10: when the query is non-empty and no longer than the reference set,
every query point receives a valid reference index (no -1 entries), the
corresponded-pair count is the query length and the MSE is defined (not the
Infinity sentinel); and a non-empty query yields zero correspondences only
against an empty reference set. -/
theorem c10_full_assignment_when_query_fits (u refs : List Point2D) :
    (u ≠ [] → u.length ≤ refs.length →
      (∀ i, i < u.length →
        0 ≤ (findBestCorrespondence u refs).getD i (-1) ∧
        (findBestCorrespondence u refs).getD i (-1) < (refs.length : ℤ)) ∧
      (mseTotals u refs (findBestCorrespondence u refs)).2 = u.length ∧
      calculateMSE u refs (findBestCorrespondence u refs) ≠ none) ∧
    (u ≠ [] → (mseTotals u refs (findBestCorrespondence u refs)).2 = 0 → refs = []) := by
  have hlen : (findBestCorrespondence u refs).length = u.length :=
    correspondenceGo_length refs u ∅
  constructor
  · intro hne hle
    have hvalid : ∀ i, i < u.length →
        0 ≤ (findBestCorrespondence u refs).getD i (-1) ∧
        (findBestCorrespondence u refs).getD i (-1) < (refs.length : ℤ) := by
      intro i hi
      have hcond : NearestCond (u.getD i (Point2D.mk 0 0)) refs
          (assignedSet ((findBestCorrespondence u refs).take i))
          ((findBestCorrespondence u refs).getD i (-1)) := by
        have h := correspondenceGo_spec refs u ∅ i hi
        rwa [Finset.empty_union] at h
      obtain ⟨hiff, hsome⟩ := hcond
      have hfree : ¬ ∀ k < refs.length,
          k ∈ assignedSet ((findBestCorrespondence u refs).take i) := by
        intro hall
        have hsub : Finset.range refs.length ⊆
            assignedSet ((findBestCorrespondence u refs).take i) := by
          intro k hk
          exact hall k (Finset.mem_range.mp hk)
        have hcard := Finset.card_le_card hsub
        rw [Finset.card_range] at hcard
        have h1 := assignedSet_card_le ((findBestCorrespondence u refs).take i)
        have h2 : ((findBestCorrespondence u refs).take i).length ≤ i :=
          List.length_take_le i _
        omega
      have hne1 : (findBestCorrespondence u refs).getD i (-1) ≠ -1 := by
        intro h
        exact hfree (hiff.mp h)
      rcases correspondenceGo_entry_shape refs u ∅ i with h | ⟨j, hj⟩
      · exact absurd h hne1
      · have hj2 : (findBestCorrespondence u refs).getD i (-1) = (j : ℤ) := hj
        obtain ⟨hjlen, _, _, _⟩ := hsome j hj2
        rw [hj2]
        constructor
        · exact Int.natCast_nonneg j
        · exact_mod_cast hjlen
    have hcount : (mseTotals u refs (findBestCorrespondence u refs)).2 = u.length := by
      rw [mseTotals]
      rw [mseFold_all_valid refs _ ?_ 0 0]
      · rw [List.length_zip, hlen]
        simp
      · intro pc hpc
        obtain ⟨i, hi, heq⟩ := List.mem_iff_getElem.mp hpc
        have hiu : i < u.length := by
          rw [List.length_zip, hlen] at hi
          omega
        have hic : i < (findBestCorrespondence u refs).length := by omega
        rw [List.getElem_zip] at heq
        have hgd : (findBestCorrespondence u refs).getD i (-1) =
            (findBestCorrespondence u refs)[i] := by
          simp [List.getD_eq_getElem?_getD, List.getElem?_eq_getElem hic]
        have := hvalid i hiu
        rw [hgd] at this
        rw [← heq]
        exact this
    refine ⟨hvalid, hcount, ?_⟩
    rw [calculateMSE_def, hcount]
    have hpos : 0 < u.length := List.length_pos.mpr hne
    simp [hpos]
  · intro hne hcount
    by_contra hrefs
    obtain ⟨q, u2, rfl⟩ := List.exists_cons_of_ne_nil hne
    have hstep : findBestCorrespondence (q :: u2) refs = correspondenceGo refs (q :: u2) ∅ := rfl
    rw [hstep, correspondenceGo] at hcount
    cases hfn : findNearestAux q refs 0 ∅ none with
    | none =>
      have hall := (findNearestAux_none_iff q refs ∅).mp hfn
      have : refs.length = 0 := by
        by_contra hl
        have := hall 0 (by omega)
        simp at this
      exact hrefs (List.length_eq_zero.mp this)
    | some c =>
      obtain ⟨j, d⟩ := c
      rw [hfn] at hcount
      obtain ⟨hjlen, _, _, _, _⟩ := findNearestAux_some_spec q refs ∅ j d hfn
      rw [mseTotals, List.zip_cons_cons, List.foldl_cons] at hcount
      have hc0 : 0 ≤ ((j : ℤ)) ∧ ((j : ℤ)) < (refs.length : ℤ) :=
        ⟨Int.natCast_nonneg j, by exact_mod_cast hjlen⟩
      rw [show mseStep refs (0, 0) (q, (j : ℤ)) =
        ((0 : ℝ) + distanceSquared q (refs.getD ((j : ℤ)).toNat (Point2D.mk 0 0)), 0 + 1) from by
          simp only [mseStep]
          rw [if_pos hc0]] at hcount
      have := mseFold_count_mono refs (u2.zip (correspondenceGo refs u2 (insert j ∅)))
        ((0 : ℝ) + distanceSquared q (refs.getD ((j : ℤ)).toNat (Point2D.mk 0 0))) (0 + 1)
      omega

theorem calculateSimilarity_def (u : List Point2D) (R : ReferenceConstellation) :
    calculateSimilarity u R =
      expSimilarity (calculateMSE (normalizePoints u) (normalizePoints R.points)
        (findBestCorrespondence (normalizePoints u) (normalizePoints R.points))) *
      pointCountPenalty (pointCountDiff u R) := rfl

theorem correspondenceGo_self (l : List Point2D) (hnd : l.Nodup) :
    ∀ (s : List Point2D) (i : ℕ), l.drop i = s →
      correspondenceGo l s (Finset.range i) =
        (List.range (l.length - i)).map fun k => ((i + k : ℕ) : ℤ) := by
  intro s
  induction s with
  | nil =>
    intro i hdrop
    have hle : l.length ≤ i := List.drop_eq_nil_iff.mp hdrop
    rw [correspondenceGo, show l.length - i = 0 by omega]
    simp
  | cons p s2 ih =>
    intro i hdrop
    have hi : i < l.length := by
      by_contra hge
      rw [List.drop_eq_nil_iff.mpr (by omega)] at hdrop
      exact List.noConfusion hdrop
    have hcons : l.drop i = l[i] :: l.drop (i + 1) := List.drop_eq_getElem_cons hi
    rw [hdrop] at hcons
    injection hcons with hp hs2
    rw [correspondenceGo]
    cases hfn : findNearestAux p l 0 (Finset.range i) none with
    | none =>
      exfalso
      have hall := (findNearestAux_none_iff p l (Finset.range i)).mp hfn
      have := hall i hi
      simp at this
    | some c =>
      obtain ⟨j, d⟩ := c
      obtain ⟨hjlen, hju, hd, hmin, _⟩ := findNearestAux_some_spec p l (Finset.range i) j d hfn
      have hgetDi : l.getD i (Point2D.mk 0 0) = l[i] := by
        simp [List.getD_eq_getElem?_getD, List.getElem?_eq_getElem hi]
      have h0 : d ≤ 0 := by
        have hm := hmin i hi (by simp)
        rw [hgetDi, ← hp, distanceSquared_self] at hm
        exact hm
      have hdnn : 0 ≤ d := by
        rw [hd]
        exact distanceSquared_nonneg _ _
      have hdz : d = 0 := le_antisymm h0 hdnn
      have hjp : p = l.getD j (Point2D.mk 0 0) := by
        rw [hdz] at hd
        exact (distanceSquared_eq_zero_iff _ _).mp hd.symm
      have hgetDj : l.getD j (Point2D.mk 0 0) = l[j] := by
        simp [List.getD_eq_getElem?_getD, List.getElem?_eq_getElem hjlen]
      have hji : j = i := by
        have hElem : l[j] = l[i] := by rw [← hgetDj, ← hjp, hp]
        exact hnd.getElem_inj_iff.mp hElem
      subst hji
      have hins : insert j (Finset.range j) = Finset.range (j + 1) := (Finset.range_succ).symm
      dsimp only
      rw [hins, ih (j + 1) hs2.symm]
      rw [show l.length - j = (l.length - (j + 1)) + 1 by omega, List.range_succ_eq_map]
      rw [List.map_cons, List.map_map, List.cons.injEq]
      refine ⟨by norm_num, ?_⟩
      apply List.map_congr_left
      intro k _
      simp only [Function.comp_apply]
      omega

theorem findBestCorrespondence_self (l : List Point2D) (hnd : l.Nodup) :
    findBestCorrespondence l l = (List.range l.length).map fun k => ((k : ℕ) : ℤ) := by
  have h := correspondenceGo_self l hnd l 0 (by simp)
  simp only [Finset.range_zero, Nat.sub_zero, Nat.zero_add] at h
  exact h

theorem mseTotals_self (l : List Point2D) :
    mseTotals l l ((List.range l.length).map fun k => ((k : ℕ) : ℤ)) = (0, l.length) := by
  rw [mseTotals]
  rw [mseFold_zero l _ ?_ 0 0]
  · rw [List.length_zip, List.length_map, List.length_range]
    simp
  · intro pc hpc
    obtain ⟨i, hi, heq⟩ := List.mem_iff_getElem.mp hpc
    have hlen : i < l.length := by
      rw [List.length_zip, List.length_map, List.length_range] at hi
      omega
    rw [List.getElem_zip] at heq
    simp only [List.getElem_map, List.getElem_range] at heq
    rw [← heq]
    dsimp only
    refine ⟨⟨Int.natCast_nonneg i, by exact_mod_cast hlen⟩, ?_⟩
    have hgetD : l.getD ((i : ℤ)).toNat (Point2D.mk 0 0) = l[i] := by
      rw [Int.toNat_ofNat]
      simp [List.getD_eq_getElem?_getD, List.getElem?_eq_getElem hlen]
    rw [hgetD]
    exact distanceSquared_self _

theorem calculateSimilarity_self_of_nodup (R : ReferenceConstellation)
    (hne : R.points ≠ []) (hnd : (normalizePoints R.points).Nodup) :
    calculateSimilarity R.points R = 1 := by
  rw [calculateSimilarity_def]
  rw [findBestCorrespondence_self _ hnd]
  rw [calculateMSE_def, mseTotals_self]
  have hpos : 0 < (normalizePoints R.points).length := by
    rw [normalizePoints_length]
    exact List.length_pos.mpr hne
  rw [if_pos hpos]
  rw [show ((0 : ℝ) / ((normalizePoints R.points).length : ℝ)) = 0 from zero_div _]
  rw [show expSimilarity (some 0) = Real.exp (-0 * 2) from rfl]
  rw [show pointCountDiff R.points R = 0 by
    rw [pointCountDiff, sub_self, Int.natAbs_zero]]
  rw [show pointCountPenalty 0 = 1 by rw [pointCountPenalty]; norm_num]
  norm_num

theorem normalizePoints_nodup (l : List Point2D) (h : l.Nodup) :
    (normalizePoints l).Nodup := by
  rw [normalizePoints_def, centerPoints_def, List.map_map]
  refine List.Nodup.map ?_ h
  intro p q hpq
  have hs : getScale (centerPoints l) ≠ 0 := (getScale_pos _).ne'
  simp only [Function.comp_apply, Point2D.mk.injEq] at hpq
  obtain ⟨h1, h2⟩ := hpq
  rw [← centerPoints_def] at h1 h2
  have hx : p.x - (getCentroid l).x = q.x - (getCentroid l).x := by
    have h1m : (p.x - (getCentroid l).x) / getScale (centerPoints l) * getScale (centerPoints l) =
        (q.x - (getCentroid l).x) / getScale (centerPoints l) * getScale (centerPoints l) := by
      rw [h1]
    rwa [div_mul_cancel₀ _ hs, div_mul_cancel₀ _ hs] at h1m
  have hy : p.y - (getCentroid l).y = q.y - (getCentroid l).y := by
    have h2m : (p.y - (getCentroid l).y) / getScale (centerPoints l) * getScale (centerPoints l) =
        (q.y - (getCentroid l).y) / getScale (centerPoints l) * getScale (centerPoints l) := by
      rw [h2]
    rwa [div_mul_cancel₀ _ hs, div_mul_cancel₀ _ hs] at h2m
  ext
  · linarith
  · linarith

/-- C5: every reference shape in the library, matched against its own point
list in authored order, scores similarity exactly 1. -/
theorem c5_self_match (R : ReferenceConstellation)
    (hR : R ∈ referenceConstellations) :
    calculateSimilarity R.points R = 1 := by
  have happly : ∀ S : ReferenceConstellation, S.points ≠ [] → S.points.Nodup →
      calculateSimilarity S.points S = 1 := fun S h1 h2 =>
    calculateSimilarity_self_of_nodup S h1 (normalizePoints_nodup _ h2)
  have hmem := hR
  simp only [referenceConstellations, List.mem_cons, List.not_mem_nil, or_false] at hmem
  rcases hmem with rfl | rfl | rfl | rfl | rfl | rfl | rfl
  · exact happly _ (by simp [kurageConstellation])
      (by norm_num [kurageConstellation, List.nodup_cons, List.mem_cons, Point2D.mk.injEq])
  · exact happly _ (by simp [irukaConstellation])
      (by norm_num [irukaConstellation, List.nodup_cons, List.mem_cons, Point2D.mk.injEq])
  · exact happly _ (by simp [sasoriConstellation])
      (by norm_num [sasoriConstellation, List.nodup_cons, List.mem_cons, Point2D.mk.injEq])
  · exact happly _ (by simp [pizzaConstellation])
      (by norm_num [pizzaConstellation, List.nodup_cons, List.mem_cons, Point2D.mk.injEq])
  · exact happly _ (by simp [swordConstellation])
      (by norm_num [swordConstellation, List.nodup_cons, List.mem_cons, Point2D.mk.injEq])
  · exact happly _ (by simp [eiConstellation])
      (by norm_num [eiConstellation, List.nodup_cons, List.mem_cons, Point2D.mk.injEq])
  · exact happly _ (by simp [gyozaConstellation])
      (by norm_num [gyozaConstellation, List.nodup_cons, List.mem_cons, Point2D.mk.injEq])

/-- Witness for C5 at the first library shape. -/
theorem c5_witness :
    calculateSimilarity kurageConstellation.points kurageConstellation = 1 :=
  c5_self_match kurageConstellation (by simp [referenceConstellations])

theorem bestLoop_spec (Q : List Point2D) :
    ∀ (lib : List ReferenceConstellation) (b0 : Option MatchResult) (s0 : ℝ),
      ((∀ R ∈ lib, calculateSimilarity Q R ≤ s0) → bestLoop Q lib (b0, s0) = (b0, s0)) ∧
      (¬ (∀ R ∈ lib, calculateSimilarity Q R ≤ s0) →
        ∃ i, ∃ hi : i < lib.length,
          bestLoop Q lib (b0, s0) =
            (some (mkResult (lib.get ⟨i, hi⟩) (calculateSimilarity Q (lib.get ⟨i, hi⟩))),
              calculateSimilarity Q (lib.get ⟨i, hi⟩)) ∧
          s0 < calculateSimilarity Q (lib.get ⟨i, hi⟩) ∧
          (∀ k, ∀ hk : k < lib.length,
            calculateSimilarity Q (lib.get ⟨k, hk⟩) ≤ calculateSimilarity Q (lib.get ⟨i, hi⟩)) ∧
          (∀ k, ∀ hk : k < lib.length, k < i →
            calculateSimilarity Q (lib.get ⟨k, hk⟩) < calculateSimilarity Q (lib.get ⟨i, hi⟩))) := by
  intro lib
  induction lib with
  | nil =>
    intro b0 s0
    refine ⟨fun _ => rfl, fun hnot => absurd ?_ hnot⟩
    intro R hR
    exact absurd hR (List.not_mem_nil R)
  | cons R rest ih =>
    intro b0 s0
    rw [bestLoop]
    by_cases hlt : s0 < calculateSimilarity Q R
    · rw [if_pos hlt]
      constructor
      · intro h
        exact absurd (h R (List.mem_cons_self _ _)) (not_le.mpr hlt)
      · intro _
        by_cases htail : ∀ S ∈ rest, calculateSimilarity Q S ≤ calculateSimilarity Q R
        · rw [(ih _ _).1 htail]
          refine ⟨0, by simp, rfl, hlt, ?_, ?_⟩
          · intro k hk
            cases k with
            | zero => exact le_refl _
            | succ k2 =>
              exact htail _ (List.get_mem rest k2 (by simpa using hk))
          · intro k hk hk0
            omega
        · obtain ⟨i2, hi2, heq, hbase, hmax, hfirst⟩ := (ih _ _).2 htail
          refine ⟨i2 + 1, by simpa using hi2, heq, lt_trans hlt hbase, ?_, ?_⟩
          · intro k hk
            cases k with
            | zero => exact le_of_lt hbase
            | succ k2 => exact hmax k2 (by simpa using hk)
          · intro k hk hki
            cases k with
            | zero => exact hbase
            | succ k2 => exact hfirst k2 (by simpa using hk) (by omega)
    · rw [if_neg hlt]
      have hRle : calculateSimilarity Q R ≤ s0 := le_of_not_lt hlt
      constructor
      · intro h
        exact (ih b0 s0).1 fun S hS => h S (List.mem_cons_of_mem _ hS)
      · intro hnot
        have hnotrest : ¬ ∀ S ∈ rest, calculateSimilarity Q S ≤ s0 := by
          intro hrest
          apply hnot
          intro S hS
          rcases List.mem_cons.mp hS with rfl | hS2
          · exact hRle
          · exact hrest S hS2
        obtain ⟨i2, hi2, heq, hbase, hmax, hfirst⟩ := (ih b0 s0).2 hnotrest
        refine ⟨i2 + 1, by simpa using hi2, heq, hbase, ?_, ?_⟩
        · intro k hk
          cases k with
          | zero => exact le_trans hRle (le_of_lt hbase)
          | succ k2 => exact hmax k2 (by simpa using hk)
        · intro k hk hki
          cases k with
          | zero => exact lt_of_le_of_lt hRle hbase
          | succ k2 => exact hfirst k2 (by simpa using hk) (by omega)

theorem mseFold_total_nonneg (refs : List Point2D) (L : List (Point2D × ℤ)) :
    ∀ (a : ℝ) (n : ℕ), 0 ≤ a → 0 ≤ (L.foldl (mseStep refs) (a, n)).1 := by
  induction L with
  | nil => intro a n ha; simpa using ha
  | cons pc L ih =>
    intro a n ha
    rw [List.foldl_cons]
    by_cases hc : 0 ≤ pc.2 ∧ pc.2 < (refs.length : ℤ)
    · rw [show mseStep refs (a, n) pc =
        (a + distanceSquared pc.1 (refs.getD pc.2.toNat (Point2D.mk 0 0)), n + 1) by
          simp [mseStep, hc]]
      exact ih _ _ (add_nonneg ha (distanceSquared_nonneg _ _))
    · rw [show mseStep refs (a, n) pc = (a, n) by simp [mseStep, hc]]
      exact ih a n ha

theorem expSimilarity_nonneg (o : Option ℝ) : 0 ≤ expSimilarity o := by
  cases o with
  | none => exact le_refl 0
  | some m => exact le_of_lt (Real.exp_pos _)

theorem expSimilarity_mse_le_one (u r : List Point2D) (c : List ℤ) :
    expSimilarity (calculateMSE u r c) ≤ 1 := by
  rw [calculateMSE_def]
  by_cases h : 0 < (mseTotals u r c).2
  · rw [if_pos h]
    rw [show expSimilarity (some ((mseTotals u r c).1 / ((mseTotals u r c).2 : ℝ))) =
      Real.exp (-((mseTotals u r c).1 / ((mseTotals u r c).2 : ℝ)) * 2) from rfl]
    have htot : 0 ≤ (mseTotals u r c).1 := mseFold_total_nonneg r _ 0 0 (le_refl 0)
    have hm : 0 ≤ (mseTotals u r c).1 / ((mseTotals u r c).2 : ℝ) :=
      div_nonneg htot (Nat.cast_nonneg _)
    calc Real.exp (-((mseTotals u r c).1 / ((mseTotals u r c).2 : ℝ)) * 2) ≤ Real.exp 0 :=
          Real.exp_le_exp.mpr (by nlinarith)
      _ = 1 := Real.exp_zero
  · rw [if_neg h]
    rw [show expSimilarity none = 0 from rfl]
    norm_num

theorem pointCountPenalty_nonneg (d : ℕ) : 0 ≤ pointCountPenalty d :=
  le_max_left 0 _

theorem pointCountPenalty_le_one (d : ℕ) : pointCountPenalty d ≤ 1 := by
  rw [pointCountPenalty]
  have : (1 : ℝ) - (d : ℝ) * 0.1 ≤ 1 := by
    have : (0 : ℝ) ≤ (d : ℝ) * 0.1 := by positivity
    linarith
  exact max_le (by norm_num) this

theorem calculateSimilarity_nonneg (Q : List Point2D) (R : ReferenceConstellation) :
    0 ≤ calculateSimilarity Q R := by
  rw [calculateSimilarity_def]
  exact mul_nonneg (expSimilarity_nonneg _) (pointCountPenalty_nonneg _)

theorem calculateSimilarity_le_one (Q : List Point2D) (R : ReferenceConstellation) :
    calculateSimilarity Q R ≤ 1 := by
  rw [calculateSimilarity_def]
  have h1 := expSimilarity_nonneg (calculateMSE (normalizePoints Q) (normalizePoints R.points)
    (findBestCorrespondence (normalizePoints Q) (normalizePoints R.points)))
  have h2 := expSimilarity_mse_le_one (normalizePoints Q) (normalizePoints R.points)
    (findBestCorrespondence (normalizePoints Q) (normalizePoints R.points))
  have h3 := pointCountPenalty_nonneg (pointCountDiff Q R)
  have h4 := pointCountPenalty_le_one (pointCountDiff Q R)
  nlinarith

theorem referenceConstellations_ne_nil : referenceConstellations ≠ [] := by
  rw [referenceConstellations]
  exact List.cons_ne_nil _ _

theorem findBestMatch_characterization (Q : List Point2D) (t : ℝ) (hQ : Q.length ≠ 0) :
    ∃ i, ∃ hi : i < referenceConstellations.length,
      (∀ k, ∀ hk : k < referenceConstellations.length,
        calculateSimilarity Q (referenceConstellations.get ⟨k, hk⟩) ≤
          calculateSimilarity Q (referenceConstellations.get ⟨i, hi⟩)) ∧
      (∀ k, ∀ hk : k < referenceConstellations.length, k < i →
        calculateSimilarity Q (referenceConstellations.get ⟨k, hk⟩) <
          calculateSimilarity Q (referenceConstellations.get ⟨i, hi⟩)) ∧
      findBestMatch Q t =
        (if calculateSimilarity Q (referenceConstellations.get ⟨i, hi⟩) < t then none
         else some (mkResult (referenceConstellations.get ⟨i, hi⟩)
           (calculateSimilarity Q (referenceConstellations.get ⟨i, hi⟩)))) := by
  have hnot : ¬ ∀ R ∈ referenceConstellations, calculateSimilarity Q R ≤ (-1 : ℝ) := by
    intro hall
    obtain ⟨R0, rest, hcons⟩ := List.exists_cons_of_ne_nil referenceConstellations_ne_nil
    have hmem : R0 ∈ referenceConstellations := by
      rw [hcons]
      exact List.mem_cons_self _ _
    have h1 := hall R0 hmem
    have h2 := calculateSimilarity_nonneg Q R0
    linarith
  obtain ⟨i, hi, heq, _, hmax, hfirst⟩ := (bestLoop_spec Q referenceConstellations none (-1)).2 hnot
  refine ⟨i, hi, hmax, hfirst, ?_⟩
  rw [findBestMatch, if_neg hQ, heq]
  rfl

/-- C6: every similarity the matcher computes lies in [0, 1]; in particular
any MatchResult returned by findBestMatch and every entry of the ranking
carries a similarity in [0, 1]. -/
theorem c6_similarity_range (Q : List Point2D) (R : ReferenceConstellation) (t : ℝ) :
    (0 ≤ calculateSimilarity Q R ∧ calculateSimilarity Q R ≤ 1) ∧
    (findBestMatch Q t).elim True (fun m => 0 ≤ m.similarity ∧ m.similarity ≤ 1) ∧
    (calculateAllSimilarities Q).Forall (fun m => 0 ≤ m.similarity ∧ m.similarity ≤ 1) := by
  refine ⟨⟨calculateSimilarity_nonneg Q R, calculateSimilarity_le_one Q R⟩, ?_, ?_⟩
  · by_cases hQ : Q.length = 0
    · rw [findBestMatch, if_pos hQ]
      exact trivial
    · obtain ⟨i, hi, _, _, heq⟩ := findBestMatch_characterization Q t hQ
      rw [heq]
      by_cases hth : calculateSimilarity Q (referenceConstellations.get ⟨i, hi⟩) < t
      · rw [if_pos hth]
        exact trivial
      · rw [if_neg hth]
        exact ⟨calculateSimilarity_nonneg Q _, calculateSimilarity_le_one Q _⟩
  · rw [List.forall_iff_forall_mem]
    intro m hm
    rw [calculateAllSimilarities] at hm
    by_cases hQ : Q.length = 0
    · rw [if_pos hQ] at hm
      exact absurd hm (List.not_mem_nil m)
    · rw [if_neg hQ] at hm
      rw [List.mem_mergeSort] at hm
      obtain ⟨S, _, rfl⟩ := List.mem_map.mp hm
      exact ⟨calculateSimilarity_nonneg Q S, calculateSimilarity_le_one Q S⟩

/-- C1: findBestMatch returns none exactly when the query is empty, the
library is empty, or every reference shape scores strictly below the
threshold (equivalently, the maximum similarity is below it); otherwise it
returns the MatchResult of the first reference shape attaining the maximal
similarity, whose similarity is at least the threshold. -/
theorem c1_findBestMatch_none_iff_and_argmax (Q : List Point2D) (t : ℝ) :
    (findBestMatch Q t = none ↔
      Q = [] ∨ referenceConstellations = [] ∨
        ∀ R ∈ referenceConstellations, calculateSimilarity Q R < t) ∧
    (∀ m, findBestMatch Q t = some m →
      ∃ i, ∃ hi : i < referenceConstellations.length,
        m = mkResult (referenceConstellations.get ⟨i, hi⟩)
          (calculateSimilarity Q (referenceConstellations.get ⟨i, hi⟩)) ∧
        t ≤ m.similarity ∧
        (∀ R ∈ referenceConstellations,
          calculateSimilarity Q R ≤
            calculateSimilarity Q (referenceConstellations.get ⟨i, hi⟩)) ∧
        (∀ k, ∀ hk : k < referenceConstellations.length, k < i →
          calculateSimilarity Q (referenceConstellations.get ⟨k, hk⟩) <
            calculateSimilarity Q (referenceConstellations.get ⟨i, hi⟩))) := by
  by_cases hQ : Q.length = 0
  · have hQnil : Q = [] := List.length_eq_zero.mp hQ
    constructor
    · rw [findBestMatch, if_pos hQ]
      simp [hQnil]
    · intro m hm
      rw [findBestMatch, if_pos hQ] at hm
      exact absurd hm (by simp)
  · obtain ⟨i, hi, hmax, hfirst, heq⟩ := findBestMatch_characterization Q t hQ
    have hmaxmem : ∀ R ∈ referenceConstellations,
        calculateSimilarity Q R ≤
          calculateSimilarity Q (referenceConstellations.get ⟨i, hi⟩) := by
      intro R hR
      obtain ⟨⟨k, hk⟩, rfl⟩ := List.mem_iff_get.mp hR
      exact hmax k hk
    constructor
    · rw [heq]
      by_cases hth : calculateSimilarity Q (referenceConstellations.get ⟨i, hi⟩) < t
      · rw [if_pos hth]
        constructor
        · intro _
          refine Or.inr (Or.inr ?_)
          intro R hR
          exact lt_of_le_of_lt (hmaxmem R hR) hth
        · intro _
          rfl
      · rw [if_neg hth]
        constructor
        · intro h
          exact absurd h (by simp)
        · intro h
          rcases h with h | h | h
          · subst h
            exact absurd rfl hQ
          · exact absurd h referenceConstellations_ne_nil
          · exact absurd (h _ (List.get_mem referenceConstellations i hi)) hth
    · intro m hm
      rw [heq] at hm
      by_cases hth : calculateSimilarity Q (referenceConstellations.get ⟨i, hi⟩) < t
      · rw [if_pos hth] at hm
        exact absurd hm (by simp)
      · rw [if_neg hth] at hm
        have hm2 := Option.some.injEq .. |>.mp hm
        refine ⟨i, hi, hm2.symm, ?_, hmaxmem, hfirst⟩
        rw [← hm2]
        exact not_lt.mp hth

/-- Witness for C1 at the empty query and the default threshold. -/
theorem c1_witness : findBestMatch [] 0.3 = none :=
  (c1_findBestMatch_none_iff_and_argmax [] 0.3).1.mpr (Or.inl rfl)

/-- The similarity formula in the spec's phrasing: exp (-2 * MSE) (0 at
MSE = Infinity) times max (0, 1 - 0.1 * |queryCount - referenceCount|).
Spec-side definition, compared against calculateSimilarity in C2. -/
noncomputable def similaritySpec (Q : List Point2D) (R : ReferenceConstellation) : ℝ :=
  (match calculateMSE (normalizePoints Q) (normalizePoints R.points)
      (findBestCorrespondence (normalizePoints Q) (normalizePoints R.points)) with
    | some m => Real.exp (-(2 * m))
    | none => 0) *
  max 0 (1 - 0.1 * |(Q.length : ℝ) - (R.points.length : ℝ)|)

/-- C2: the computed similarity equals the spec's formula
exp (-2 * MSE) * max (0, 1 - 0.1 * |len Q - len R|), and a point-count
difference of 10 or more forces similarity 0. -/
theorem c2_similarity_formula (Q : List Point2D) (R : ReferenceConstellation) :
    calculateSimilarity Q R = similaritySpec Q R ∧
    (10 ≤ pointCountDiff Q R → calculateSimilarity Q R = 0) := by
  constructor
  · rw [calculateSimilarity_def, similaritySpec]
    congr 1
    · rcases hc : calculateMSE (normalizePoints Q) (normalizePoints R.points)
        (findBestCorrespondence (normalizePoints Q) (normalizePoints R.points)) with _ | m
      · rfl
      · show Real.exp (-m * 2) = Real.exp (-(2 * m))
        congr 1
        ring
    · rw [pointCountPenalty, pointCountDiff]
      rw [Int.cast_natAbs]
      congr 1
      push_cast
      ring
  · intro h10
    rw [calculateSimilarity_def]
    have hpen : pointCountPenalty (pointCountDiff Q R) = 0 := by
      rw [pointCountPenalty]
      have hcast : (10 : ℝ) ≤ ((pointCountDiff Q R : ℕ) : ℝ) := by exact_mod_cast h10
      have : (1 : ℝ) - (pointCountDiff Q R : ℝ) * 0.1 ≤ 0 := by nlinarith
      exact max_eq_left this
    rw [hpen, mul_zero]

/-- The exp (-2 * MSE) factor of the similarity (before the point-count
penalty), as computed by calculateSimilarity. -/
noncomputable def rawSimilarity (Q : List Point2D) (R : ReferenceConstellation) : ℝ :=
  expSimilarity (calculateMSE (normalizePoints Q) (normalizePoints R.points)
    (findBestCorrespondence (normalizePoints Q) (normalizePoints R.points)))

/-- C7: the similarity factors as rawSimilarity × penalty; with the geometric
factor held fixed and positive, the similarity strictly decreases every time
the point-count difference grows by 1 (up to 10), and it is exactly 0 at a
difference of 10. -/
theorem c7_point_count_penalty_monotone (Q Q2 : List Point2D)
    (R R2 : ReferenceConstellation) :
    (calculateSimilarity Q R = rawSimilarity Q R * pointCountPenalty (pointCountDiff Q R)) ∧
    (pointCountDiff Q R = 10 → calculateSimilarity Q R = 0) ∧
    (rawSimilarity Q2 R2 = rawSimilarity Q R → 0 < rawSimilarity Q R →
      pointCountDiff Q2 R2 = pointCountDiff Q R + 1 → pointCountDiff Q R < 10 →
      calculateSimilarity Q2 R2 < calculateSimilarity Q R) := by
  refine ⟨rfl, ?_, ?_⟩
  · intro h10
    rw [calculateSimilarity_def]
    rw [show pointCountPenalty (pointCountDiff Q R) = 0 by
      rw [h10, pointCountPenalty]
      norm_num]
    exact mul_zero _
  · intro heq hpos hsucc hlt
    rw [show calculateSimilarity Q2 R2 =
      rawSimilarity Q2 R2 * pointCountPenalty (pointCountDiff Q2 R2) from rfl]
    rw [show calculateSimilarity Q R =
      rawSimilarity Q R * pointCountPenalty (pointCountDiff Q R) from rfl]
    rw [heq, hsucc]
    refine (mul_lt_mul_left hpos).mpr ?_
    have hD : ((pointCountDiff Q R : ℕ) : ℝ) ≤ 9 := by
      have : pointCountDiff Q R ≤ 9 := by omega
      exact_mod_cast this
    have hpen : pointCountPenalty (pointCountDiff Q R) =
        1 - (pointCountDiff Q R : ℝ) * 0.1 := by
      rw [pointCountPenalty]
      refine max_eq_right ?_
      nlinarith
    rw [hpen, pointCountPenalty]
    have harg : (1 : ℝ) - ((pointCountDiff Q R + 1 : ℕ) : ℝ) * 0.1 <
        1 - (pointCountDiff Q R : ℝ) * 0.1 := by
      push_cast
      nlinarith
    refine max_lt ?_ harg
    nlinarith

theorem rankLE_trans (a b c : MatchResult)
    (h1 : decide (b.similarity ≤ a.similarity) = true)
    (h2 : decide (c.similarity ≤ b.similarity) = true) :
    decide (c.similarity ≤ a.similarity) = true := by
  rw [decide_eq_true_iff] at h1 h2 ⊢
  exact le_trans h2 h1

theorem rankLE_total (a b : MatchResult) :
    (decide (b.similarity ≤ a.similarity) || decide (a.similarity ≤ b.similarity)) = true := by
  rcases le_total b.similarity a.similarity with h | h
  · rw [decide_eq_true h]
    rfl
  · rw [decide_eq_true h]
    simp

/-- C9: for a non-empty query, the ranking is a permutation of one
MatchResult per reference shape (with id, name and asset path carried through
by mkResult), sorted by weakly decreasing similarity; the sort is stable, so
the entries of any given similarity value appear exactly in library order.
For an empty query the ranking is empty. -/
theorem c9_rank_all_sorted_stable (Q : List Point2D) :
    (Q = [] → calculateAllSimilarities Q = []) ∧
    (Q ≠ [] →
      (calculateAllSimilarities Q).Perm
        (referenceConstellations.map fun R => mkResult R (calculateSimilarity Q R)) ∧
      (calculateAllSimilarities Q).Pairwise (fun a b => b.similarity ≤ a.similarity) ∧
      ∀ s : ℝ, (calculateAllSimilarities Q).filter (fun m => decide (m.similarity = s)) =
        (referenceConstellations.map fun R =>
          mkResult R (calculateSimilarity Q R)).filter (fun m => decide (m.similarity = s))) := by
  constructor
  · intro h
    rw [calculateAllSimilarities, if_pos (by rw [h]; rfl)]
  · intro h
    have hQl : ¬ Q.length = 0 := fun h0 => h (List.length_eq_zero.mp h0)
    rw [calculateAllSimilarities, if_neg hQl]
    refine ⟨List.mergeSort_perm _ _, ?_, ?_⟩
    · have hp := List.sorted_mergeSort rankLE_trans rankLE_total
        (referenceConstellations.map fun R => mkResult R (calculateSimilarity Q R))
      exact hp.imp fun hab => decide_eq_true_iff.mp hab
    · intro s
      have hsub : List.Sublist
          ((referenceConstellations.map fun R =>
            mkResult R (calculateSimilarity Q R)).filter
              (fun m => decide (m.similarity = s)))
          ((referenceConstellations.map fun R =>
            mkResult R (calculateSimilarity Q R)).mergeSort
              fun a b => decide (b.similarity ≤ a.similarity)) := by
        refine List.sublist_mergeSort rankLE_trans rankLE_total ?_ (List.filter_sublist _)
        refine List.pairwise_of_forall_mem_list ?_
        intro a ha b hb
        have ha2 := (List.mem_filter.mp ha).2
        have hb2 := (List.mem_filter.mp hb).2
        rw [decide_eq_true_iff] at ha2 hb2 ⊢
        rw [ha2, hb2]
      have hperm : (((referenceConstellations.map fun R =>
          mkResult R (calculateSimilarity Q R)).mergeSort
            fun a b => decide (b.similarity ≤ a.similarity)).filter
              (fun m => decide (m.similarity = s))).Perm
          ((referenceConstellations.map fun R =>
            mkResult R (calculateSimilarity Q R)).filter
              (fun m => decide (m.similarity = s))) :=
        (List.mergeSort_perm _ _).filter _
      have hsub2 := hsub.filter (fun m => decide (m.similarity = s))
      rw [List.filter_filter] at hsub2
      have hself : ((referenceConstellations.map fun R =>
          mkResult R (calculateSimilarity Q R)).filter
            (fun m => (decide (m.similarity = s) && decide (m.similarity = s)))) =
          ((referenceConstellations.map fun R =>
            mkResult R (calculateSimilarity Q R)).filter
              (fun m => decide (m.similarity = s))) := by
        apply List.filter_congr
        intro m _
        rw [Bool.and_self]
      rw [hself] at hsub2
      exact (hsub2.eq_of_length (hperm.length_eq.symm)).symm

end ConstellationMatcher
